import Mathlib

/-!
Shallow embedding of the MockJack blackjack engine
(`internal/game/mockjack.go`): card/hand model, hand valuation,
deck/shoe with draw-and-auto-refill, and the round state machine.

Modelling conventions:
* Go `int` values that stay non-negative are `Nat`; every subtraction in
  the source is guarded, so `Nat` subtraction agrees with the Go code.
* The deck's random source (`rand.Rand`, seeded from the clock) is
  modelled as an abstract stream `rng : Nat → Nat` together with a
  position counter; `Intn n` at position `p` is `rng p % n`, which like
  the Go call always lands in `[0, n)`.
* `Deck.Draw` indexes `cards[len-1]`; the embedding returns an
  `Option`, `none` standing for the out-of-bounds access that the Go
  code would panic on.  Game operations therefore live in `Option` as
  well, and the `none` case is proved unreachable for decks with
  `1 ≤ shoe` (the invariant `NewDeck` establishes).
* The dealer-draw loop of `PlayerStand` is a `while` loop in Go; it is
  embedded with explicit fuel, `none` standing for non-termination.
  Fuel 19 is proved sufficient for every deck whose cards all have rank
  at least 1 (every deck the engine ever builds).
-/

/-- Game states, in declaration order of the Go `State` enum. -/
inductive State where
  | WaitingDeal : State
  | PlayerTurn : State
  | DealerTurn : State
  | RoundOver : State
deriving DecidableEq, Repr

/-- A card: suit `0..3` (Clubs, Diamonds, Hearts, Spades) and rank
`1..13` (Ace = 1 .. King = 13), as in the Go `Card` struct. -/
structure Card where
  Suit : Nat
  Rank : Nat
deriving DecidableEq, Repr

/-- A hand: the ordered list of cards, as in the Go `Hand` struct. -/
structure Hand where
  Cards : List Card
deriving DecidableEq, Repr

/-- Go `(*Hand).Clear`: `h.Cards = h.Cards[:0]`. -/
def Hand.Clear (_h : Hand) : Hand := { Cards := [] }

/-- Go `(*Hand).Add`: `h.Cards = append(h.Cards, c)`. -/
def Hand.Add (h : Hand) (c : Card) : Hand := { Cards := h.Cards ++ [c] }

/-- Contribution of one card to the first pass of `Hand.Value`:
Ace counts 11, ranks ≥ 10 count 10, others their rank. -/
def cardSoftValue (c : Card) : Nat :=
  if c.Rank = 1 then 11 else if 10 ≤ c.Rank then 10 else c.Rank

/-- Contribution of one card to the second ("hard") pass of
`Hand.Value`: Ace counts 1, ranks ≥ 10 count 10, others their rank. -/
def cardHardValue (c : Card) : Nat :=
  if c.Rank = 1 then 1 else if 10 ≤ c.Rank then 10 else c.Rank

/-- The `total` accumulated by the first loop of `Hand.Value`
(every Ace scored 11). -/
def softSum : List Card → Nat
  | [] => 0
  | c :: cs => cardSoftValue c + softSum cs

/-- The `hard` total of the second loop of `Hand.Value`
(every Ace scored 1). -/
def hardSum : List Card → Nat
  | [] => 0
  | c :: cs => cardHardValue c + hardSum cs

/-- The `aces` / `aceCount` counter of both loops of `Hand.Value`. -/
def countAces : List Card → Nat
  | [] => 0
  | c :: cs => (if c.Rank = 1 then 1 else 0) + countAces cs

/-- The ace-demotion loop of `Hand.Value`:
`for total > 21 && aces > 0 { total -= 10; aces-- }`; returns the final
`(total, aces)` pair.  Recursion is on `aces`, which the loop body
decrements. -/
def demoteLoop : Nat → Nat → Nat × Nat
  | total, 0 => (total, 0)
  | total, a + 1 => if 21 < total then demoteLoop (total - 10) a else (total, a + 1)

/-- Go `(Hand).Value`: first pass sums with Aces as 11 and demotes Aces
while busting; the second, independent pass computes the hard total and
declares the hand soft iff it holds an Ace and `hard + 10 ≤ 21`. -/
def Hand.Value (h : Hand) : Nat × Bool :=
  let best := (demoteLoop (softSum h.Cards) (countAces h.Cards)).1
  let isSoft := decide (0 < countAces h.Cards ∧ hardSum h.Cards + 10 ≤ 21)
  (best, isSoft)

/-- The deck (shoe).  `cards` and `shoe` mirror the Go fields; the
`rand.Rand` source is abstracted into the stream `rng` and the count
`pos` of random numbers consumed so far. -/
structure Deck where
  cards : List Card
  rng : Nat → Nat
  pos : Nat
  shoe : Nat

/-- Swap positions `i` and `j` of a list (the parallel assignment
`d.cards[i], d.cards[j] = d.cards[j], d.cards[i]`); out-of-range
indices leave the list unchanged (never hit by the shuffle). -/
def listSwap (l : List Card) (i j : Nat) : List Card :=
  match l.get? i, l.get? j with
  | some a, some b => (l.set i b).set j a
  | _, _ => l

/-- The Fisher–Yates loop of `(*Deck).shuffle`: argument `i` runs
`n-1, n-2, …, 1`; at loop index `i` it draws `j := Intn (i+1)` and
swaps positions `i` and `j`.  Returns the permuted list and the new
random-stream position. -/
def fyAux (rng : Nat → Nat) : Nat → List Card → Nat → List Card × Nat
  | 0, l, pos => (l, pos)
  | i + 1, l, pos => fyAux rng i (listSwap l (i + 1) (rng pos % (i + 2))) (pos + 1)

/-- Go `(*Deck).shuffle`: Fisher–Yates over the whole card list. -/
def Deck.shuffle (d : Deck) : Deck :=
  let r := fyAux d.rng (d.cards.length - 1) d.cards d.pos
  { d with cards := r.1, pos := r.2 }

/-- The triple loop of `(*Deck).reset`: suits `0..3` outermost, ranks
`1..13`, and `shoe` copies innermost, in append order. -/
def builtCards (shoe : Nat) : List Card :=
  (List.range 4).flatMap fun s =>
    (List.range 13).flatMap fun r =>
      List.replicate shoe { Suit := s, Rank := r + 1 }

/-- Go `(*Deck).reset`: rebuild the full shoe, then shuffle. -/
def Deck.reset (d : Deck) : Deck :=
  Deck.shuffle { d with cards := builtCards d.shoe }

/-- Go `NewDeck`: clamp the shoe count up to 1, then reset.  (The Go seed
`time.Now().UnixNano()` is abstracted into the `rng` stream.) -/
def NewDeck (shoe : Nat) (rng : Nat → Nat) : Deck :=
  Deck.reset { cards := [], rng := rng, pos := 0, shoe := if shoe < 1 then 1 else shoe }

/-- First step of `(*Deck).Draw`: `if len(d.cards) == 0 { d.reset() }`. -/
def Deck.refillIfEmpty (d : Deck) : Deck :=
  if d.cards.length = 0 then d.reset else d

/-- Go `(*Deck).Draw`: reset when empty, then remove and return the last
card.  `none` models the out-of-bounds access `d.cards[len-1]` on a
still-empty deck (proved unreachable when `1 ≤ shoe`). -/
def Deck.Draw (d : Deck) : Option (Card × Deck) :=
  match (d.refillIfEmpty).cards.getLast? with
  | some c => some (c, { d.refillIfEmpty with cards := (d.refillIfEmpty).cards.dropLast })
  | none => none

/-- The `Game` struct: deck, the two hands, state and result string. -/
structure Game where
  Deck : Deck
  Player : Hand
  Dealer : Hand
  State : State
  Result : String

/-- Go `NewGame`: fresh deck, empty hands, `WaitingDeal`, empty result. -/
def NewGame (shoe : Nat) (rng : Nat → Nat) : Game :=
  { Deck := NewDeck shoe rng, Player := { Cards := [] }, Dealer := { Cards := [] },
    State := State.WaitingDeal, Result := "" }

/-- Go `(*Game).finishRound`: set `RoundOver` and format the result by
priority: player bust, dealer bust, higher value wins, push.
(`fmt.Sprintf` is embedded as explicit string appends.) -/
def Game.finishRound (g : Game) : Game :=
  let pv := (g.Player.Value).1
  let dv := (g.Dealer.Value).1
  let r : String :=
    if 21 < pv then "Player busts (" ++ toString pv ++ "). Dealer wins."
    else if 21 < dv then "Dealer busts (" ++ toString dv ++ "). Player wins!"
    else if dv < pv then "Player wins! (" ++ toString pv ++ " vs " ++ toString dv ++ ")"
    else if pv < dv then "Dealer wins. (" ++ toString dv ++ " vs " ++ toString pv ++ ")"
    else "Push. (" ++ toString pv ++ " vs " ++ toString dv ++ ")"
  { g with State := State.RoundOver, Result := r }

/-- Go `(*Game).Deal`: clear hands and result, enter `PlayerTurn`, draw
player/dealer/player/dealer, and resolve at once if either hand shows
21. -/
def Game.Deal (g : Game) : Option Game :=
  let g0 : Game := { g with Player := g.Player.Clear, Dealer := g.Dealer.Clear,
                            Result := "", State := State.PlayerTurn }
  match g0.Deck.Draw with
  | none => none
  | some (c1, d1) =>
  match d1.Draw with
  | none => none
  | some (c2, d2) =>
  match d2.Draw with
  | none => none
  | some (c3, d3) =>
  match d3.Draw with
  | none => none
  | some (c4, d4) =>
    let g1 : Game := { g0 with Deck := d4,
                               Player := (g0.Player.Add c1).Add c3,
                               Dealer := (g0.Dealer.Add c2).Add c4 }
    if (g1.Player.Value).1 = 21 ∨ (g1.Dealer.Value).1 = 21 then some g1.finishRound
    else some g1

/-- Go `(*Game).PlayerHit`: no-op outside `PlayerTurn`; otherwise draw one
card into the player hand and resolve on a bust. -/
def Game.PlayerHit (g : Game) : Option Game :=
  if g.State = State.PlayerTurn then
    match g.Deck.Draw with
    | none => none
    | some (c, d) =>
      let g1 : Game := { g with Deck := d, Player := g.Player.Add c }
      if 21 < (g1.Player.Value).1 then some g1.finishRound else some g1
  else some g

/-- Go `(*Game).isDealerSoft`. -/
def Game.isDealerSoft (g : Game) : Bool := (g.Dealer.Value).2

/-- The dealer-draw loop of `(*Game).PlayerStand`: while the dealer
shows less than 17, or exactly 17 soft, draw; stop otherwise.  `fuel`
makes the `while` loop total; `none` models non-termination. -/
def dealerLoop : Nat → Game → Option Game
  | 0, _ => none
  | fuel + 1, g =>
    let dv := (g.Dealer.Value).1
    if dv < 17 ∨ (dv = 17 ∧ g.isDealerSoft = true) then
      match g.Deck.Draw with
      | none => none
      | some (c, d) => dealerLoop fuel { g with Deck := d, Dealer := g.Dealer.Add c }
    else some g

/-- Go `(*Game).PlayerStand`: no-op outside `PlayerTurn`; otherwise enter
`DealerTurn`, run the dealer-draw loop, and resolve.  Fuel 19 is an
upper bound on the loop's iterations, proved sufficient below for every
deck the engine builds. -/
def Game.PlayerStand (g : Game) : Option Game :=
  if g.State = State.PlayerTurn then
    match dealerLoop 19 { g with State := State.DealerTurn } with
    | none => none
    | some g2 => some g2.finishRound
  else some g

/-! ## Hand-valuation lemmas -/

lemma countAces_le_hardSum (cs : List Card) : countAces cs ≤ hardSum cs := by
  induction cs with
  | nil => simp [countAces, hardSum]
  | cons c cs ih =>
    simp only [countAces, hardSum, cardHardValue]
    split <;> omega

lemma softSum_eq_hard_add (cs : List Card) :
    softSum cs = hardSum cs + 10 * countAces cs := by
  induction cs with
  | nil => simp [softSum, hardSum, countAces]
  | cons c cs ih =>
    simp only [softSum, hardSum, countAces, cardSoftValue, cardHardValue]
    split <;> omega

lemma demoteLoop_closed : ∀ (a h : Nat), a ≤ h →
    demoteLoop (h + 10 * a) a =
      if 1 ≤ a ∧ h + 10 ≤ 21 then (h + 10, 1) else (h, 0) := by
  intro a
  induction a with
  | zero => intro h _; simp [demoteLoop]
  | succ s ih =>
    intro h hah
    have hs : s ≤ h := Nat.le_of_succ_le hah
    have hstep : demoteLoop (h + 10 * (s + 1)) (s + 1) =
        if 21 < h + 10 * (s + 1) then demoteLoop (h + 10 * (s + 1) - 10) s
        else (h + 10 * (s + 1), s + 1) := rfl
    rw [hstep]
    by_cases hlt : 21 < h + 10 * (s + 1)
    · rw [if_pos hlt]
      have harg : h + 10 * (s + 1) - 10 = h + 10 * s := by omega
      rw [harg, ih h hs]
      rcases Nat.eq_zero_or_pos s with hz | hpos
      · subst hz
        have : ¬ (h + 10 ≤ 21) := by omega
        simp [this]
      · have h1s : 1 ≤ s := hpos
        by_cases hb : h + 10 ≤ 21
        · simp [hb, h1s]
        · simp [hb]
    · rw [if_neg hlt]
      have hs0 : s = 0 := by omega
      subst hs0
      have hb : h + 10 ≤ 21 := by omega
      simp [hb]

lemma value_loop_fst (cs : List Card) :
    (demoteLoop (softSum cs) (countAces cs)).1 =
      if 1 ≤ countAces cs ∧ hardSum cs + 10 ≤ 21
      then hardSum cs + 10 else hardSum cs := by
  rw [softSum_eq_hard_add, demoteLoop_closed (countAces cs) (hardSum cs) (countAces_le_hardSum cs)]
  split <;> rfl

lemma value_loop_snd (cs : List Card) :
    (demoteLoop (softSum cs) (countAces cs)).2 =
      if 1 ≤ countAces cs ∧ hardSum cs + 10 ≤ 21 then 1 else 0 := by
  rw [softSum_eq_hard_add, demoteLoop_closed (countAces cs) (hardSum cs) (countAces_le_hardSum cs)]
  split <;> rfl

lemma Hand.Value_fst (h : Hand) :
    (h.Value).1 =
      if 1 ≤ countAces h.Cards ∧ hardSum h.Cards + 10 ≤ 21
      then hardSum h.Cards + 10 else hardSum h.Cards :=
  value_loop_fst h.Cards

lemma Hand.Value_snd (h : Hand) :
    (h.Value).2 = decide (0 < countAces h.Cards ∧ hardSum h.Cards + 10 ≤ 21) := rfl

/-- The hand's value never drops below its hard total. -/
lemma hardSum_le_value (h : Hand) : hardSum h.Cards ≤ (h.Value).1 := by
  rw [Hand.Value_fst]
  split <;> omega

/-- Modelled from the spec: the alternative soft-hand definition — "at
least one Ace remains counted as 11 after the first pass's ace-demotion
loop". -/
def softByRemainingAces (cs : List Card) : Bool :=
  decide (0 < (demoteLoop (softSum cs) (countAces cs)).2)

/-- C2: `Hand.Value` returns `best` as specified: the ace-demotion loop
yields exactly `hard + 10` when the hand holds an Ace and
`hard + 10 ≤ 21`, and `hard` otherwise (`hard` counting every Ace
as 1); in particular a hand of two Aces evaluates to `(12, true)`. -/
theorem value_best_closed_form :
    (∀ h : Hand, (h.Value).1 =
      if 1 ≤ countAces h.Cards ∧ hardSum h.Cards + 10 ≤ 21
      then hardSum h.Cards + 10 else hardSum h.Cards) ∧
    Hand.Value { Cards := [⟨0, 1⟩, ⟨3, 1⟩] } = (12, true) :=
  ⟨Hand.Value_fst, by decide⟩

/-- C3: for every hand the second-pass `isSoft` (an Ace exists and
`hard + 10 ≤ 21`) agrees with "at least one Ace is still counted as 11
after the demotion loop", and equivalently with "`best` exceeds the
hard total". -/
theorem soft_definitions_agree :
    ∀ h : Hand, (h.Value).2 = softByRemainingAces h.Cards ∧
      ((h.Value).2 = true ↔ hardSum h.Cards < (h.Value).1) := by
  intro h
  constructor
  · rw [Hand.Value_snd, softByRemainingAces, value_loop_snd, decide_eq_decide]
    by_cases hc : 1 ≤ countAces h.Cards ∧ hardSum h.Cards + 10 ≤ 21
    · rw [if_pos hc]; omega
    · rw [if_neg hc]; omega
  · rw [Hand.Value_snd, Hand.Value_fst]
    simp only [decide_eq_true_eq]
    by_cases hc : 1 ≤ countAces h.Cards ∧ hardSum h.Cards + 10 ≤ 21
    · rw [if_pos hc]; omega
    · rw [if_neg hc]; omega

/-! ## Deck lemmas -/

lemma listSwap_length (l : List Card) (i j : Nat) :
    (listSwap l i j).length = l.length := by
  unfold listSwap
  split <;> simp [List.length_set]

lemma listSwap_subset {l : List Card} {i j : Nat} {x : Card}
    (hx : x ∈ listSwap l i j) : x ∈ l := by
  unfold listSwap at hx
  split at hx
  · rename_i a b ha hb
    rcases List.mem_or_eq_of_mem_set hx with h1 | h1
    · rcases List.mem_or_eq_of_mem_set h1 with h2 | h2
      · exact h2
      · exact h2 ▸ List.get?_mem hb
    · exact h1 ▸ List.get?_mem ha
  · exact hx

lemma fyAux_length (rng : Nat → Nat) :
    ∀ (n : Nat) (l : List Card) (pos : Nat),
      ((fyAux rng n l pos).1).length = l.length := by
  intro n
  induction n with
  | zero => intro l pos; rfl
  | succ i ih =>
    intro l pos
    show ((fyAux rng i (listSwap l (i + 1) (rng pos % (i + 2))) (pos + 1)).1).length = l.length
    rw [ih, listSwap_length]

lemma fyAux_subset (rng : Nat → Nat) :
    ∀ (n : Nat) (l : List Card) (pos : Nat) (x : Card),
      x ∈ (fyAux rng n l pos).1 → x ∈ l := by
  intro n
  induction n with
  | zero => intro l pos x hx; exact hx
  | succ i ih =>
    intro l pos x hx
    exact listSwap_subset (ih (listSwap l (i + 1) (rng pos % (i + 2))) (pos + 1) x hx)

lemma builtCards_length (shoe : Nat) : (builtCards shoe).length = 52 * shoe := by
  rw [builtCards, show List.range 4 = [0, 1, 2, 3] from rfl,
      show List.range 13 = [0, 1, 2, 3, 4, 5, 6, 7, 8, 9, 10, 11, 12] from rfl]
  simp only [List.flatMap_cons, List.flatMap_nil, List.length_append,
    List.length_replicate, List.append_nil]
  ring

lemma builtCards_rank {shoe : Nat} {x : Card} (hx : x ∈ builtCards shoe) :
    1 ≤ x.Rank := by
  simp only [builtCards, List.mem_flatMap, List.mem_replicate] at hx
  obtain ⟨s, -, r, -, -, rfl⟩ := hx
  simp

lemma reset_shoe (d : Deck) : (d.reset).shoe = d.shoe := rfl

lemma reset_cards_length (d : Deck) : (d.reset).cards.length = 52 * d.shoe := by
  show ((fyAux d.rng ((builtCards d.shoe).length - 1) (builtCards d.shoe) d.pos).1).length
    = 52 * d.shoe
  rw [fyAux_length, builtCards_length]

lemma reset_rank {d : Deck} {x : Card} (hx : x ∈ (d.reset).cards) : 1 ≤ x.Rank :=
  builtCards_rank (fyAux_subset d.rng ((builtCards d.shoe).length - 1)
    (builtCards d.shoe) d.pos x hx)

lemma refill_shoe (d : Deck) : (d.refillIfEmpty).shoe = d.shoe := by
  unfold Deck.refillIfEmpty
  split <;> rfl

lemma refill_length (d : Deck) :
    (d.refillIfEmpty).cards.length =
      if d.cards.length = 0 then 52 * d.shoe else d.cards.length := by
  unfold Deck.refillIfEmpty
  split
  · exact reset_cards_length d
  · rfl

lemma refill_pos (d : Deck) (h : 1 ≤ d.shoe) :
    0 < (d.refillIfEmpty).cards.length := by
  rw [refill_length]
  split
  · omega
  · rename_i hne; omega

lemma refill_rank {d : Deck} (hr : ∀ x ∈ d.cards, 1 ≤ x.Rank) :
    ∀ x ∈ (d.refillIfEmpty).cards, 1 ≤ x.Rank := by
  unfold Deck.refillIfEmpty
  split
  · intro x hx; exact reset_rank hx
  · exact hr

/-- Deterministic description of a successful draw: the resulting deck
is the (possibly refilled) deck minus its last card, which is the card
returned. -/
lemma draw_dest {d : Deck} {c : Card} {d' : Deck} (h : d.Draw = some (c, d')) :
    (d.refillIfEmpty).cards.getLast? = some c ∧
      d' = { d.refillIfEmpty with cards := (d.refillIfEmpty).cards.dropLast } := by
  unfold Deck.Draw at h
  cases hg : (d.refillIfEmpty).cards.getLast? with
  | none => rw [hg] at h; exact absurd h (by simp)
  | some x =>
    rw [hg] at h
    simp only [Option.some.injEq, Prod.mk.injEq] at h
    obtain ⟨h1, h2⟩ := h
    subst h1
    exact ⟨rfl, h2.symm⟩

lemma draw_shoe {d : Deck} {c : Card} {d' : Deck} (h : d.Draw = some (c, d')) :
    d'.shoe = d.shoe := by
  obtain ⟨-, h2⟩ := draw_dest h
  rw [h2]
  exact refill_shoe d

lemma draw_length {d : Deck} {c : Card} {d' : Deck} (h : d.Draw = some (c, d')) :
    d'.cards.length = (if d.cards.length = 0 then 52 * d.shoe else d.cards.length) - 1 := by
  obtain ⟨-, h2⟩ := draw_dest h
  rw [h2]
  show (d.refillIfEmpty).cards.dropLast.length = _
  rw [List.length_dropLast, refill_length]

lemma draw_rank {d : Deck} {c : Card} {d' : Deck} (h : d.Draw = some (c, d'))
    (hr : ∀ x ∈ d.cards, 1 ≤ x.Rank) :
    1 ≤ c.Rank ∧ ∀ x ∈ d'.cards, 1 ≤ x.Rank := by
  obtain ⟨h1, h2⟩ := draw_dest h
  constructor
  · exact refill_rank hr c (List.mem_of_mem_getLast? h1)
  · intro x hx
    rw [h2] at hx
    exact refill_rank hr x (List.mem_of_mem_dropLast hx)

lemma draw_total (d : Deck) (h : 1 ≤ d.shoe) : ∃ c d', d.Draw = some (c, d') := by
  have hpos := refill_pos d h
  have hne : (d.refillIfEmpty).cards ≠ [] := by
    intro he; rw [he] at hpos; simp at hpos
  obtain ⟨c, hc⟩ := Option.isSome_iff_exists.mp (List.getLast?_isSome.mpr hne)
  refine ⟨c, { d.refillIfEmpty with cards := (d.refillIfEmpty).cards.dropLast }, ?_⟩
  unfold Deck.Draw
  rw [hc]

/-! ## Round-resolution lemmas -/

lemma append_ne_empty {s : String} (t : String) (h : s ≠ "") : s ++ t ≠ "" := by
  intro he
  apply h
  have hd : (s ++ t).data = s.data ++ t.data := String.data_append s t
  rw [he] at hd
  have hnil : s.data = [] := by
    have h2 := hd.symm
    simp only [List.append_eq_nil] at h2
    exact h2.1
  exact String.ext hnil

lemma finishRound_Player (g : Game) : (g.finishRound).Player = g.Player := rfl

lemma finishRound_Dealer (g : Game) : (g.finishRound).Dealer = g.Dealer := rfl

lemma finishRound_State (g : Game) : (g.finishRound).State = State.RoundOver := rfl

lemma finishRound_Result (g : Game) :
    (g.finishRound).Result =
      if 21 < (g.Player.Value).1 then
        "Player busts (" ++ toString (g.Player.Value).1 ++ "). Dealer wins."
      else if 21 < (g.Dealer.Value).1 then
        "Dealer busts (" ++ toString (g.Dealer.Value).1 ++ "). Player wins!"
      else if (g.Dealer.Value).1 < (g.Player.Value).1 then
        "Player wins! (" ++ toString (g.Player.Value).1 ++ " vs "
          ++ toString (g.Dealer.Value).1 ++ ")"
      else if (g.Player.Value).1 < (g.Dealer.Value).1 then
        "Dealer wins. (" ++ toString (g.Dealer.Value).1 ++ " vs "
          ++ toString (g.Player.Value).1 ++ ")"
      else
        "Push. (" ++ toString (g.Player.Value).1 ++ " vs "
          ++ toString (g.Dealer.Value).1 ++ ")" := rfl

lemma finishRound_Result_ne (g : Game) : (g.finishRound).Result ≠ "" := by
  rw [finishRound_Result]
  split
  · repeat apply append_ne_empty
    decide
  split
  · repeat apply append_ne_empty
    decide
  split
  · repeat apply append_ne_empty
    decide
  split
  · repeat apply append_ne_empty
    decide
  · repeat apply append_ne_empty
    decide

/-- C5: `finishRound` always sets `RoundOver` and picks the result by
priority — player bust beats dealer bust beats value comparison, with a
push on equal values — formatting the stated message in each case. -/
theorem finishRound_spec : ∀ g : Game,
    (g.finishRound).State = State.RoundOver ∧
    (21 < (g.Player.Value).1 →
      (g.finishRound).Result =
        "Player busts (" ++ toString (g.Player.Value).1 ++ "). Dealer wins.") ∧
    ((g.Player.Value).1 ≤ 21 → 21 < (g.Dealer.Value).1 →
      (g.finishRound).Result =
        "Dealer busts (" ++ toString (g.Dealer.Value).1 ++ "). Player wins!") ∧
    ((g.Player.Value).1 ≤ 21 → (g.Dealer.Value).1 ≤ 21 →
      (g.Dealer.Value).1 < (g.Player.Value).1 →
      (g.finishRound).Result =
        "Player wins! (" ++ toString (g.Player.Value).1 ++ " vs "
          ++ toString (g.Dealer.Value).1 ++ ")") ∧
    ((g.Player.Value).1 ≤ 21 → (g.Dealer.Value).1 ≤ 21 →
      (g.Player.Value).1 < (g.Dealer.Value).1 →
      (g.finishRound).Result =
        "Dealer wins. (" ++ toString (g.Dealer.Value).1 ++ " vs "
          ++ toString (g.Player.Value).1 ++ ")") ∧
    ((g.Player.Value).1 ≤ 21 → (g.Dealer.Value).1 ≤ 21 →
      (g.Player.Value).1 = (g.Dealer.Value).1 →
      (g.finishRound).Result =
        "Push. (" ++ toString (g.Player.Value).1 ++ " vs "
          ++ toString (g.Dealer.Value).1 ++ ")") := by
  intro g
  refine ⟨finishRound_State g, ?_, ?_, ?_, ?_, ?_⟩
  · intro h1
    rw [finishRound_Result, if_pos h1]
  · intro h1 h2
    rw [finishRound_Result, if_neg (by omega), if_pos h2]
  · intro h1 h2 h3
    rw [finishRound_Result, if_neg (by omega), if_neg (by omega), if_pos h3]
  · intro h1 h2 h3
    rw [finishRound_Result, if_neg (by omega), if_neg (by omega),
        if_neg (by omega), if_pos h3]
  · intro h1 h2 h3
    rw [finishRound_Result, if_neg (by omega), if_neg (by omega),
        if_neg (by omega), if_neg (by omega)]

/-- A concrete game used to instantiate `finishRound_spec`: both hands
show 19, so the round is a push. -/
def pushGame : Game :=
  { Deck := { cards := [], rng := fun _ => 0, pos := 0, shoe := 1 },
    Player := { Cards := [⟨0, 10⟩, ⟨0, 9⟩] },
    Dealer := { Cards := [⟨1, 10⟩, ⟨1, 9⟩] },
    State := State.DealerTurn, Result := "" }

/-- Witness for C5 at a concrete push position. -/
theorem finishRound_spec_witness :
    (pushGame.finishRound).Result =
      "Push. (" ++ toString ((pushGame.Player.Value).1) ++ " vs "
        ++ toString ((pushGame.Dealer.Value).1) ++ ")" :=
  (finishRound_spec pushGame).2.2.2.2.2 (by decide) (by decide) (by decide)

/-! ## Deal lemmas -/

lemma deal_total (g : Game) (hs : 1 ≤ g.Deck.shoe) : ∃ g', g.Deal = some g' := by
  obtain ⟨c1, d1, h1⟩ := draw_total g.Deck hs
  obtain ⟨c2, d2, h2⟩ := draw_total d1 (by rw [draw_shoe h1]; exact hs)
  obtain ⟨c3, d3, h3⟩ := draw_total d2 (by rw [draw_shoe h2, draw_shoe h1]; exact hs)
  obtain ⟨c4, d4, h4⟩ :=
    draw_total d3 (by rw [draw_shoe h3, draw_shoe h2, draw_shoe h1]; exact hs)
  have hss : (g.Deal).isSome = true := by
    simp only [Game.Deal, h1, h2, h3, h4]
    split <;> rfl
  obtain ⟨g', hg'⟩ := Option.isSome_iff_exists.mp hss
  exact ⟨g', hg'⟩

lemma deal_eq (g : Game) {c1 c2 c3 c4 : Card} {d1 d2 d3 d4 : Deck}
    (h1 : g.Deck.Draw = some (c1, d1)) (h2 : d1.Draw = some (c2, d2))
    (h3 : d2.Draw = some (c3, d3)) (h4 : d3.Draw = some (c4, d4)) :
    g.Deal =
      (if (((g.Player.Clear.Add c1).Add c3).Value).1 = 21 ∨
          (((g.Dealer.Clear.Add c2).Add c4).Value).1 = 21
       then some (Game.finishRound
         { Deck := d4, Player := (g.Player.Clear.Add c1).Add c3,
           Dealer := (g.Dealer.Clear.Add c2).Add c4,
           State := State.PlayerTurn, Result := "" })
       else some
         { Deck := d4, Player := (g.Player.Clear.Add c1).Add c3,
           Dealer := (g.Dealer.Clear.Add c2).Add c4,
           State := State.PlayerTurn, Result := "" }) := by
  simp only [Game.Deal, h1, h2, h3, h4]

/-- C1: `Deal` is legal in every state: it succeeds (for the positive
shoe `NewDeck` guarantees), leaves exactly two cards in each hand, and
ends in `PlayerTurn` with an empty result — unless a hand shows 21
immediately, in which case the round is resolved at once
(`RoundOver`, non-empty result). -/
theorem deal_spec : ∀ g : Game, 1 ≤ g.Deck.shoe →
    ∃ g', g.Deal = some g' ∧
      g'.Player.Cards.length = 2 ∧ g'.Dealer.Cards.length = 2 ∧
      (((g'.Player.Value).1 = 21 ∨ (g'.Dealer.Value).1 = 21) →
        g'.State = State.RoundOver ∧ g'.Result ≠ "") ∧
      (¬((g'.Player.Value).1 = 21 ∨ (g'.Dealer.Value).1 = 21) →
        g'.State = State.PlayerTurn ∧ g'.Result = "") := by
  intro g hs
  obtain ⟨c1, d1, h1⟩ := draw_total g.Deck hs
  obtain ⟨c2, d2, h2⟩ := draw_total d1 (by rw [draw_shoe h1]; exact hs)
  obtain ⟨c3, d3, h3⟩ := draw_total d2 (by rw [draw_shoe h2, draw_shoe h1]; exact hs)
  obtain ⟨c4, d4, h4⟩ :=
    draw_total d3 (by rw [draw_shoe h3, draw_shoe h2, draw_shoe h1]; exact hs)
  have hdeal := deal_eq g h1 h2 h3 h4
  by_cases hc : (((g.Player.Clear.Add c1).Add c3).Value).1 = 21 ∨
      (((g.Dealer.Clear.Add c2).Add c4).Value).1 = 21
  · rw [if_pos hc] at hdeal
    refine ⟨_, hdeal, rfl, rfl, fun _ => ⟨rfl, finishRound_Result_ne _⟩, fun hn => ?_⟩
    exact absurd hc hn
  · rw [if_neg hc] at hdeal
    refine ⟨_, hdeal, rfl, rfl, fun hy => absurd hy hc, fun _ => ⟨rfl, rfl⟩⟩

/-- A concrete fresh game over a four-card stacked deck (draw order:
player 5♣, dealer 9♦, player 7♣, dealer 8♦). -/
def dealGame : Game :=
  { Deck := { cards := [⟨1, 8⟩, ⟨0, 7⟩, ⟨1, 9⟩, ⟨0, 5⟩], rng := fun _ => 0,
              pos := 0, shoe := 1 },
    Player := { Cards := [] }, Dealer := { Cards := [] },
    State := State.WaitingDeal, Result := "" }

/-- Witness for C1 at a concrete game. -/
theorem deal_spec_witness :
    ∃ g', dealGame.Deal = some g' ∧
      g'.Player.Cards.length = 2 ∧ g'.Dealer.Cards.length = 2 ∧
      (((g'.Player.Value).1 = 21 ∨ (g'.Dealer.Value).1 = 21) →
        g'.State = State.RoundOver ∧ g'.Result ≠ "") ∧
      (¬((g'.Player.Value).1 = 21 ∨ (g'.Dealer.Value).1 = 21) →
        g'.State = State.PlayerTurn ∧ g'.Result = "") :=
  deal_spec dealGame (by decide)

/-- C10: when both two-card hands show 21 straight off the deal, the
immediate resolution is the ordinary comparison, hence a push — a
natural blackjack gets no precedence. -/
theorem deal_double_blackjack_push : ∀ g g' : Game, g.Deal = some g' →
    (g'.Player.Value).1 = 21 → (g'.Dealer.Value).1 = 21 →
    g'.State = State.RoundOver ∧ g'.Result = "Push. (21 vs 21)" := by
  intro g g' h hp hd
  cases e1 : g.Deck.Draw with
  | none =>
    simp only [Game.Deal, e1] at h
    exact Option.noConfusion h
  | some cd1 =>
  obtain ⟨c1, d1⟩ := cd1
  cases e2 : d1.Draw with
  | none =>
    simp only [Game.Deal, e1, e2] at h
    exact Option.noConfusion h
  | some cd2 =>
  obtain ⟨c2, d2⟩ := cd2
  cases e3 : d2.Draw with
  | none =>
    simp only [Game.Deal, e1, e2, e3] at h
    exact Option.noConfusion h
  | some cd3 =>
  obtain ⟨c3, d3⟩ := cd3
  cases e4 : d3.Draw with
  | none =>
    simp only [Game.Deal, e1, e2, e3, e4] at h
    exact Option.noConfusion h
  | some cd4 =>
  obtain ⟨c4, d4⟩ := cd4
  rw [deal_eq g e1 e2 e3 e4] at h
  split at h
  · rename_i hc
    simp only [Option.some.injEq] at h
    subst h
    rw [finishRound_Player] at hp
    rw [finishRound_Dealer] at hd
    refine ⟨rfl, ?_⟩
    rw [finishRound_Result, hp, hd]
    norm_num
    rfl
  · rename_i hc
    simp only [Option.some.injEq] at h
    subst h
    exact absurd (Or.inl hp) hc

/-- A concrete game whose stacked deck deals Ace+King to both hands. -/
def doubleBJGame : Game :=
  { Deck := { cards := [⟨0, 13⟩, ⟨1, 13⟩, ⟨0, 1⟩, ⟨1, 1⟩], rng := fun _ => 0,
              pos := 0, shoe := 1 },
    Player := { Cards := [] }, Dealer := { Cards := [] },
    State := State.RoundOver, Result := "old" }

/-- The game `doubleBJGame.Deal` reaches (computed once, reused by the
witness). -/
def doubleBJGame2 : Game := (doubleBJGame.Deal).getD doubleBJGame

/-- Witness for C10 at a concrete double-blackjack deal. -/
theorem deal_double_blackjack_push_witness :
    doubleBJGame2.State = State.RoundOver ∧ doubleBJGame2.Result = "Push. (21 vs 21)" :=
  deal_double_blackjack_push doubleBJGame doubleBJGame2 rfl (by decide) (by decide)

/-! ## PlayerHit / guard lemmas -/

/-- C6: during `PlayerTurn` a hit adds exactly one card; the round is
resolved exactly when the new value busts, with the "Player busts"
message (at 22 the result contains "Player busts (22)"); on 21 or less
the state stays `PlayerTurn` and the (cleared) result stays empty. -/
theorem hit_spec : ∀ g g' : Game, g.State = State.PlayerTurn → g.Result = "" →
    g.PlayerHit = some g' →
    g'.Player.Cards.length = g.Player.Cards.length + 1 ∧
    (g'.State = State.RoundOver ↔ 21 < (g'.Player.Value).1) ∧
    (21 < (g'.Player.Value).1 →
      g'.Result = "Player busts (" ++ toString ((g'.Player.Value).1) ++ "). Dealer wins.") ∧
    ((g'.Player.Value).1 = 22 → ∃ t, g'.Result = "Player busts (22)" ++ t) ∧
    ((g'.Player.Value).1 ≤ 21 → g'.State = State.PlayerTurn ∧ g'.Result = "") := by
  intro g g' hstate hres h
  simp only [Game.PlayerHit, hstate, if_pos] at h
  cases hd : g.Deck.Draw with
  | none =>
    simp only [hd] at h
    exact Option.noConfusion h
  | some cd =>
  obtain ⟨c, d⟩ := cd
  simp only [hd] at h
  split at h
  · rename_i hb
    simp only [Option.some.injEq] at h
    subst h
    simp only [finishRound_Player, finishRound_State]
    refine ⟨by simp [Hand.Add], iff_of_true trivial hb, ?_, ?_, ?_⟩
    · intro hb2
      simp only [Game.finishRound]
      rw [if_pos hb]
    · intro h22
      refine ⟨". Dealer wins.", ?_⟩
      simp only [Game.finishRound]
      rw [if_pos hb, h22]
      decide
    · intro hle
      exact absurd hb (by omega)
  · rename_i hb
    simp only [Option.some.injEq] at h
    subst h
    simp only []
    push_neg at hb
    refine ⟨by simp [Hand.Add], ?_, ?_, ?_, ?_⟩
    · exact iff_of_false (by simp) (by omega)
    · intro hgt
      exact absurd hgt (by omega)
    · intro h22
      exact absurd hb (by omega)
    · intro _
      exact ⟨trivial, hres⟩

/-- A concrete mid-round game: player shows 18 and the next draw is a
10, so a hit busts at 28. -/
def hitGame : Game :=
  { Deck := { cards := [⟨2, 10⟩], rng := fun _ => 0, pos := 0, shoe := 1 },
    Player := { Cards := [⟨0, 10⟩, ⟨0, 8⟩] },
    Dealer := { Cards := [⟨1, 10⟩, ⟨1, 7⟩] },
    State := State.PlayerTurn, Result := "" }

/-- The game `hitGame.PlayerHit` reaches. -/
def hitGame2 : Game := (hitGame.PlayerHit).getD hitGame

/-- Witness for C6 at a concrete busting hit. -/
theorem hit_spec_witness :
    hitGame2.Player.Cards.length = hitGame.Player.Cards.length + 1 ∧
    (hitGame2.State = State.RoundOver ↔ 21 < (hitGame2.Player.Value).1) ∧
    (21 < (hitGame2.Player.Value).1 →
      hitGame2.Result =
        "Player busts (" ++ toString ((hitGame2.Player.Value).1) ++ "). Dealer wins.") ∧
    ((hitGame2.Player.Value).1 = 22 → ∃ t, hitGame2.Result = "Player busts (22)" ++ t) ∧
    ((hitGame2.Player.Value).1 ≤ 21 →
      hitGame2.State = State.PlayerTurn ∧ hitGame2.Result = "") :=
  hit_spec hitGame hitGame2 rfl rfl rfl

/-- C7: outside `PlayerTurn` both `PlayerHit` and `PlayerStand` return
the game entirely unchanged — no card drawn, no field touched. -/
theorem hit_stand_noop : ∀ g : Game, g.State ≠ State.PlayerTurn →
    g.PlayerHit = some g ∧ g.PlayerStand = some g := by
  intro g hne
  constructor
  · unfold Game.PlayerHit
    rw [if_neg hne]
  · unfold Game.PlayerStand
    rw [if_neg hne]

/-- A concrete finished round (State `RoundOver`). -/
def overGame : Game :=
  { Deck := { cards := [⟨2, 10⟩, ⟨3, 4⟩], rng := fun _ => 0, pos := 0, shoe := 1 },
    Player := { Cards := [⟨0, 10⟩, ⟨0, 8⟩] },
    Dealer := { Cards := [⟨1, 10⟩, ⟨1, 9⟩] },
    State := State.RoundOver, Result := "Dealer wins. (19 vs 18)" }

/-- Witness for C7: with the round over, hit and stand change nothing. -/
theorem hit_stand_noop_witness :
    overGame.PlayerHit = some overGame ∧ overGame.PlayerStand = some overGame :=
  hit_stand_noop overGame (by decide)

/-! ## Dealer-loop lemmas -/

lemma hardSum_append_one (cs : List Card) (c : Card) :
    hardSum (cs ++ [c]) = hardSum cs + cardHardValue c := by
  induction cs with
  | nil => simp [hardSum]
  | cons x xs ih =>
    show hardSum (x :: (xs ++ [c])) = hardSum (x :: xs) + cardHardValue c
    simp only [hardSum]
    rw [ih]
    omega

lemma cardHardValue_pos {c : Card} (h : 1 ≤ c.Rank) : 1 ≤ cardHardValue c := by
  unfold cardHardValue
  split
  · omega
  · split <;> omega

/-- Whenever the dealer-draw condition holds, the dealer's hard total
is at most 16 (a soft 17 has hard total 7). -/
lemma cond_hard_le {h : Hand}
    (hc : (h.Value).1 < 17 ∨ ((h.Value).1 = 17 ∧ (h.Value).2 = true)) :
    hardSum h.Cards ≤ 16 := by
  rcases hc with hc | ⟨h17, hsoft⟩
  · have hle := hardSum_le_value h
    omega
  · rw [Hand.Value_snd, decide_eq_true_eq] at hsoft
    rw [Hand.Value_fst, if_pos (⟨hsoft.1, hsoft.2⟩ :
      1 ≤ countAces h.Cards ∧ hardSum h.Cards + 10 ≤ 21)] at h17
    omega

/-- Fuel sufficiency for the dealer-draw loop: every drawn card raises
the hard total by at least 1 and the loop only continues while the hard
total is at most 16, so fuel exceeding `17 - hard` completes. -/
lemma dealerLoop_total : ∀ (fuel : Nat) (g : Game), 1 ≤ fuel → 1 ≤ g.Deck.shoe →
    (∀ x ∈ g.Deck.cards, 1 ≤ x.Rank) → 17 < fuel + hardSum g.Dealer.Cards →
    ∃ g', dealerLoop fuel g = some g' := by
  intro fuel
  induction fuel with
  | zero => intro g h1; exact absurd h1 (by omega)
  | succ f ih =>
    intro g _ hs hr hf
    by_cases hc : (g.Dealer.Value).1 < 17 ∨
        ((g.Dealer.Value).1 = 17 ∧ g.isDealerSoft = true)
    · obtain ⟨c, d, hd⟩ := draw_total g.Deck hs
      obtain ⟨hcr, hdr⟩ := draw_rank hd hr
      have hh16 : hardSum g.Dealer.Cards ≤ 16 := cond_hard_le hc
      have hcv := cardHardValue_pos hcr
      have hnext : hardSum ((g.Dealer.Add c).Cards) =
          hardSum g.Dealer.Cards + cardHardValue c := hardSum_append_one _ _
      obtain ⟨g', hg'⟩ := ih { g with Deck := d, Dealer := g.Dealer.Add c }
        (by omega)
        (by rw [show ({ g with Deck := d, Dealer := g.Dealer.Add c } : Game).Deck = d
              from rfl, draw_shoe hd]; exact hs)
        (by intro x hx; exact hdr x hx)
        (by rw [show ({ g with Deck := d, Dealer := g.Dealer.Add c } : Game).Dealer
              = g.Dealer.Add c from rfl, hnext]; omega)
      refine ⟨g', ?_⟩
      simp only [dealerLoop]
      rw [if_pos hc]
      simp only [hd]
      exact hg'
    · refine ⟨g, ?_⟩
      simp only [dealerLoop]
      rw [if_neg hc]

/-- Exit and frame conditions of the dealer-draw loop: on success the
draw condition fails at the result, only the dealer hand and the deck
changed, the dealer hand never shrank, it strictly grew when the
condition held at entry, and nothing happened when it did not. -/
lemma dealerLoop_spec : ∀ (fuel : Nat) (g g' : Game), dealerLoop fuel g = some g' →
    ¬((g'.Dealer.Value).1 < 17 ∨ ((g'.Dealer.Value).1 = 17 ∧ g'.isDealerSoft = true)) ∧
    g'.State = g.State ∧ g'.Result = g.Result ∧ g'.Player = g.Player ∧
    g.Dealer.Cards.length ≤ g'.Dealer.Cards.length ∧
    (((g.Dealer.Value).1 < 17 ∨ ((g.Dealer.Value).1 = 17 ∧ g.isDealerSoft = true)) →
      g.Dealer.Cards.length < g'.Dealer.Cards.length) ∧
    (¬((g.Dealer.Value).1 < 17 ∨ ((g.Dealer.Value).1 = 17 ∧ g.isDealerSoft = true)) →
      g' = g) := by
  intro fuel
  induction fuel with
  | zero =>
    intro g g' h
    exact absurd h (by simp [dealerLoop])
  | succ f ih =>
    intro g g' h
    simp only [dealerLoop] at h
    by_cases hc : (g.Dealer.Value).1 < 17 ∨
        ((g.Dealer.Value).1 = 17 ∧ g.isDealerSoft = true)
    · rw [if_pos hc] at h
      cases hd : g.Deck.Draw with
      | none =>
        simp only [hd] at h
        exact Option.noConfusion h
      | some cd =>
        obtain ⟨c, d⟩ := cd
        simp only [hd] at h
        obtain ⟨hexit, hst, hres, hpl, hlen, -, -⟩ := ih _ _ h
        have hgrow : ({ g with Deck := d, Dealer := g.Dealer.Add c } : Game
            ).Dealer.Cards.length = g.Dealer.Cards.length + 1 := by
          simp [Hand.Add]
        refine ⟨hexit, hst, hres, hpl, by omega, fun _ => by omega, fun hn => ?_⟩
        exact absurd hc hn
    · rw [if_neg hc] at h
      simp only [Option.some.injEq] at h
      subst h
      exact ⟨hc, rfl, rfl, rfl, Nat.le_refl _, fun hcc => absurd hcc hc, fun _ => rfl⟩

/-- C4: standing during `PlayerTurn` runs the dealer to completion: the
final dealer value is at least 17 and never a soft 17, the state ends
`RoundOver`; a dealer below 17 or at soft 17 draws at least one card,
while a dealer at (hard) 17 that is not soft draws none. -/
theorem stand_spec : ∀ g g' : Game, g.State = State.PlayerTurn →
    g.PlayerStand = some g' →
    17 ≤ (g'.Dealer.Value).1 ∧
    ¬((g'.Dealer.Value).1 = 17 ∧ (g'.Dealer.Value).2 = true) ∧
    g'.State = State.RoundOver ∧
    (((g.Dealer.Value).1 < 17 ∨ ((g.Dealer.Value).1 = 17 ∧ (g.Dealer.Value).2 = true)) →
      g.Dealer.Cards.length < g'.Dealer.Cards.length) ∧
    ((g.Dealer.Value).1 = 17 ∧ (g.Dealer.Value).2 = false → g'.Dealer = g.Dealer) := by
  intro g g' hstate h
  simp only [Game.PlayerStand, hstate, if_pos] at h
  cases hloop : dealerLoop 19 { g with State := State.DealerTurn } with
  | none =>
    simp only [hloop] at h
    exact Option.noConfusion h
  | some g2 =>
  simp only [hloop] at h
  simp only [Option.some.injEq] at h
  subst h
  obtain ⟨hexit, -, -, -, -, hgrow, hstay⟩ := dealerLoop_spec 19 _ g2 hloop
  push_neg at hexit
  obtain ⟨hge, hns⟩ := hexit
  refine ⟨?_, ?_, ?_, ?_, ?_⟩
  · rw [finishRound_Dealer]
    omega
  · rw [finishRound_Dealer]
    intro ⟨h17, hsoft⟩
    exact absurd hsoft (by simpa [Game.isDealerSoft] using hns h17)
  · exact finishRound_State g2
  · intro hcnd
    rw [finishRound_Dealer]
    exact hgrow hcnd
  · intro ⟨h17, hhard⟩
    rw [finishRound_Dealer]
    have hnc : ¬((({ g with State := State.DealerTurn } : Game).Dealer.Value).1 < 17 ∨
        ((({ g with State := State.DealerTurn } : Game).Dealer.Value).1 = 17 ∧
          ({ g with State := State.DealerTurn } : Game).isDealerSoft = true)) := by
      simp only [Game.isDealerSoft]
      rw [show ({ g with State := State.DealerTurn } : Game).Dealer = g.Dealer from rfl]
      rw [h17, hhard]
      simp
    rw [hstay hnc]

/-- A concrete `PlayerTurn` game whose dealer shows hard 19, so the
stand resolves without further draws. -/
def standGame : Game :=
  { Deck := { cards := [⟨2, 5⟩, ⟨2, 6⟩], rng := fun _ => 0, pos := 0, shoe := 1 },
    Player := { Cards := [⟨0, 10⟩, ⟨0, 8⟩] },
    Dealer := { Cards := [⟨1, 10⟩, ⟨1, 9⟩] },
    State := State.PlayerTurn, Result := "" }

/-- The game `standGame.PlayerStand` reaches. -/
def standGame2 : Game := (standGame.PlayerStand).getD standGame

/-- Witness for C4 at a concrete stand. -/
theorem stand_spec_witness :
    17 ≤ (standGame2.Dealer.Value).1 ∧
    ¬((standGame2.Dealer.Value).1 = 17 ∧ (standGame2.Dealer.Value).2 = true) ∧
    standGame2.State = State.RoundOver ∧
    (((standGame.Dealer.Value).1 < 17 ∨
        ((standGame.Dealer.Value).1 = 17 ∧ (standGame.Dealer.Value).2 = true)) →
      standGame.Dealer.Cards.length < standGame2.Dealer.Cards.length) ∧
    ((standGame.Dealer.Value).1 = 17 ∧ (standGame.Dealer.Value).2 = false →
      standGame2.Dealer = standGame.Dealer) :=
  stand_spec standGame standGame2 rfl rfl

/-- C9: every engine operation terminates (returns a result) on every
game whose deck satisfies the invariant the engine maintains — positive
shoe and card ranks at least 1; in particular the dealer-draw loop of
`PlayerStand` completes within its fuel. -/
theorem ops_total : ∀ g : Game, 1 ≤ g.Deck.shoe → (∀ x ∈ g.Deck.cards, 1 ≤ x.Rank) →
    (∃ g1, g.Deal = some g1) ∧ (∃ g2, g.PlayerHit = some g2) ∧
    (∃ g3, g.PlayerStand = some g3) := by
  intro g hs hr
  refine ⟨deal_total g hs, ?_, ?_⟩
  · by_cases hst : g.State = State.PlayerTurn
    · obtain ⟨c, d, hd⟩ := draw_total g.Deck hs
      have hss : (g.PlayerHit).isSome = true := by
        simp only [Game.PlayerHit, hst, if_pos, hd]
        split <;> rfl
      exact Option.isSome_iff_exists.mp hss
    · refine ⟨g, ?_⟩
      unfold Game.PlayerHit
      rw [if_neg hst]
  · by_cases hst : g.State = State.PlayerTurn
    · obtain ⟨g2, hg2⟩ := dealerLoop_total 19 { g with State := State.DealerTurn }
        (by omega) hs hr (by omega)
      refine ⟨g2.finishRound, ?_⟩
      simp only [Game.PlayerStand, hst, if_pos, hg2]
    · refine ⟨g, ?_⟩
      unfold Game.PlayerStand
      rw [if_neg hst]

/-- Witness for C9 at a concrete game. -/
theorem ops_total_witness :
    (∃ g1, dealGame.Deal = some g1) ∧ (∃ g2, dealGame.PlayerHit = some g2) ∧
    (∃ g3, dealGame.PlayerStand = some g3) :=
  ops_total dealGame (by decide) (by decide)

/-- C8: `NewDeck` clamps the shoe up to 1 and builds `52 * max shoe 1`
cards; a draw from any positive-shoe deck always succeeds (refilling a
full `52 * shoe` shoe first when empty) and leaves one card fewer than
the possibly-refilled pre-draw size. -/
theorem deck_draw_safe : ∀ (shoe : Nat) (rng : Nat → Nat) (d : Deck), 1 ≤ d.shoe →
    ((NewDeck shoe rng).shoe = max shoe 1 ∧
      (NewDeck shoe rng).cards.length = 52 * max shoe 1) ∧
    ∃ c d', d.Draw = some (c, d') ∧
      d'.cards.length =
        (if d.cards.length = 0 then 52 * d.shoe else d.cards.length) - 1 := by
  intro shoe rng d hd
  constructor
  · constructor
    · show (if shoe < 1 then 1 else shoe) = max shoe 1
      split <;> omega
    · rw [show NewDeck shoe rng = Deck.reset
          { cards := [], rng := rng, pos := 0, shoe := if shoe < 1 then 1 else shoe }
          from rfl, reset_cards_length]
      show 52 * (if shoe < 1 then 1 else shoe) = 52 * max shoe 1
      split <;> omega
  · obtain ⟨c, d', hdr⟩ := draw_total d hd
    exact ⟨c, d', hdr, draw_length hdr⟩

/-- A concrete exhausted deck (no cards left, shoe 1). -/
def drainedDeck : Deck := { cards := [], rng := fun _ => 0, pos := 0, shoe := 1 }

/-- Witness for C8: shoe 0 is clamped to 1, and drawing from the
exhausted deck refills to 52 cards and hands one out. -/
theorem deck_draw_safe_witness :
    ((NewDeck 0 (fun _ => 0)).shoe = max 0 1 ∧
      (NewDeck 0 (fun _ => 0)).cards.length = 52 * max 0 1) ∧
    ∃ c d', drainedDeck.Draw = some (c, d') ∧
      d'.cards.length =
        (if drainedDeck.cards.length = 0 then 52 * drainedDeck.shoe
         else drainedDeck.cards.length) - 1 :=
  deck_draw_safe 0 (fun _ => 0) drainedDeck (by decide)
